import Mathlib

/-!
# Verification of `lib/template.go` (anthonynsimon/new)

A shallow embedding of the template resolution and tree-rendering engine.

* Go strings are modelled as lists of characters (`Str`).  Every library
  routine used by the program that inspects a string (`strings.Replace`,
  `strings.HasPrefix`, `filepath.Clean`, `filepath.Join`, `filepath.Base`)
  only compares against the ASCII characters `/` and `.` or searches for a
  substring, so the character view and the byte view agree on valid UTF-8.
* A Go `error` is a message (`GoError`); `Option GoError` is an error
  result with `none` for `nil`.
* Pointers that may be `nil` are `Option`s.
* The operating system, the terminal prompts, the YAML decoder and the
  directory walker are external collaborators: they are parameters
  (`Sys`), and the template engine is a parameter (`Engine`).
-/

namespace New

/-- Go `string`. -/
abbrev Str := List Char

/-- Go `error` value, identified with its message. -/
structure GoError where
  msg : Str
deriving DecidableEq, Repr

/-! ## `strings` -/

/-- The function `strings.HasPrefix(s, prefix)`. -/
def HasPrefix (s pre : Str) : Bool :=
  pre.isPrefixOf s

/-- The function `strings.Index(s, substr)`: index of the first instance of `substr`
in `s`; `none` stands for `-1`. -/
def Index : Str → Str → Option Nat
  | [], substr => if substr = [] then some 0 else none
  | c :: s, substr =>
    if HasPrefix (c :: s) substr then some 0
    else (Index s substr).map (· + 1)

/-- The counting loop of `strings.Count` for a non-empty `substr`. -/
def countLoop (substr : Str) : Nat → Str → Nat
  | 0, _ => 0
  | fuel + 1, s =>
    match Index s substr with
    | none => 0
    | some i => countLoop substr fuel (s.drop (i + substr.length)) + 1

/-- The function `strings.Count(s, substr)`: number of non-overlapping instances; for an
empty `substr` it is the number of runes plus one. -/
def Count (s substr : Str) : Nat :=
  if substr = [] then s.length + 1
  else countLoop substr (s.length + 1) s

/-- The replacement loop of `strings.Replace`: `todo` replacements remain,
`i` have been made, `rest` is `s[start:]`.  The result is what is appended
to the builder from here on. -/
def replaceLoop (old new : Str) : Nat → Nat → Str → Str
  | 0, _, rest => rest
  | todo + 1, i, rest =>
    let j : Nat :=
      if old = [] then (if 0 < i then min 1 rest.length else 0)
      else (Index rest old).getD 0
    rest.take j ++ new ++ replaceLoop old new todo (i + 1) (rest.drop (j + old.length))

/-- The function `strings.Replace(s, old, new, n)`. -/
def Replace (s old new : Str) (n : Int) : Str :=
  if old = new ∨ n = 0 then s
  else
    let m := Count s old
    if m = 0 then s
    else
      let k : Nat := if n < 0 ∨ (m : Int) < n then m else n.toNat
      replaceLoop old new k 0 s

/-! ## `path/filepath` (Unix) -/

/-- The lookahead `r == n || os.IsPathSeparator(path[r])` of `Clean`. -/
def atElementEnd : Str → Bool
  | [] => true
  | c :: _ => c == '/'

/-- The inner loop of the `..` case of `Clean`: starting from write index `w`,
step back while `w > dotdot` and `out[w]` is not a separator. -/
def backtrackTo (out : Str) (dotdot : Nat) : Nat → Nat
  | 0 => 0
  | w + 1 =>
    if dotdot < w + 1 ∧ out.getD (w + 1) '/' ≠ '/' then backtrackTo out dotdot w
    else w + 1

/-- The `..` case of `Clean` when it can backtrack: `out.w--` and then the
inner loop; the buffer is cut at the resulting write index. -/
def backtrack (out : Str) (dotdot : Nat) : Str :=
  out.take (backtrackTo out dotdot (out.length - 1))

/-- The main loop of `filepath.Clean`.  `path` is what remains to be read
(`path[r:]`), `out` is the buffer written so far, `dotdot` the index where
`..` must stop.  Every iteration consumes at least one character, so a fuel
of `path.length` iterations always suffices. -/
def cleanLoop (rooted : Bool) : Nat → Str → Str → Nat → Str
  | 0, _, out, _ => out
  | _ + 1, [], out, _ => out
  | fuel + 1, c :: rest, out, dotdot =>
    if c = '/' then
      cleanLoop rooted fuel rest out dotdot
    else if c = '.' ∧ atElementEnd rest then
      cleanLoop rooted fuel rest out dotdot
    else if c = '.' ∧ rest.head? = some '.' ∧ atElementEnd (rest.drop 1) then
      if dotdot < out.length then
        cleanLoop rooted fuel (rest.drop 1) (backtrack out dotdot) dotdot
      else if rooted = false then
        let out1 := (if 0 < out.length then out ++ ['/'] else out) ++ ['.', '.']
        cleanLoop rooted fuel (rest.drop 1) out1 out1.length
      else
        cleanLoop rooted fuel (rest.drop 1) out dotdot
    else
      let out1 :=
        if (rooted = true ∧ out.length ≠ 1) ∨ (rooted = false ∧ out.length ≠ 0)
        then out ++ ['/'] else out
      cleanLoop rooted fuel ((c :: rest).dropWhile (· ≠ '/'))
        (out1 ++ (c :: rest).takeWhile (· ≠ '/')) dotdot

/-- The function `filepath.Clean(path)` on Unix (no volume name, `FromSlash` is the
identity). -/
def Clean (path : Str) : Str :=
  if path = [] then ['.']
  else
    let rooted : Bool := path.head? == some '/'
    let out :=
      if rooted then cleanLoop rooted (path.length + 1) (path.drop 1) ['/'] 1
      else cleanLoop rooted (path.length + 1) path [] 0
    if out = [] then ['.'] else out

/-- The function `filepath.Join(elem...)`: the elements from the first non-empty one on
are joined with `/` and cleaned; with no non-empty element the result is
the empty string. -/
def Join : List Str → Str
  | [] => []
  | e :: es => if e ≠ [] then Clean (List.intercalate ['/'] (e :: es)) else Join es

/-- The first loop of `filepath.Base`: strip trailing slashes. -/
def stripTrailingSlashes (path : Str) : Str :=
  (path.reverse.dropWhile (· == '/')).reverse

/-- The second loop of `filepath.Base`: the part after the last separator
(the whole string if there is none). -/
def lastElement (path : Str) : Str :=
  (path.reverse.takeWhile (· ≠ '/')).reverse

/-- The function `filepath.Base(path)`. -/
def Base (path : Str) : Str :=
  if path = [] then ['.']
  else
    let p := lastElement (stripTrailingSlashes path)
    if p = [] then ['/'] else p

/-- The function `filepath.Dir(path)`: the path up to and including its
last separator, cleaned. -/
def Dir (path : Str) : Str :=
  Clean (path.take (path.length - (lastElement path).length))

/-! ## Data model of `lib/template.go` -/

/-- The variable `configFilename`: the root template config to look for. -/
def configFilename : Str := ".new.yml".toList

/-- The struct `templateParam`: one user defined parameter of the config. -/
structure templateParam where
  Name : Str
  Required : Bool
  Kind : Str
  Prompt : Str
  Enum : List Str
deriving DecidableEq, Repr

/-- The struct `templateCfg`: the parsed template config. -/
structure templateCfg where
  Version : Str
  Description : Str
  Params : List templateParam
deriving DecidableEq, Repr

/-- The Go map `map[string]interface{}` of the context.  The only values the
program stores are the strings returned by the prompts. -/
abbrev ParamMap := Str → Option Str

/-- The result of `make(map[string]interface{})`. -/
def emptyParams : ParamMap := fun _ => none

/-- The map assignment `m[key] = value`. -/
def setParam (m : ParamMap) (key value : Str) : ParamMap :=
  fun k => if k = key then some value else m k

/-- The struct `TemplateContext`. -/
structure TemplateContext where
  Params : ParamMap

/-- The struct `localTemplate`; the two pointers are `none` when `nil`. -/
structure localTemplate where
  config : Option templateCfg
  sourcePath : Str
  destinationPath : Str
  ctx : Option TemplateContext

/-- The function `NewTemplate`. -/
def NewTemplate (templatePath destinationPath : Str) : localTemplate :=
  { config := none, destinationPath := destinationPath, sourcePath := templatePath, ctx := none }

/-! ## External collaborators -/

/-- One call `walkFn(path, info, err)` made by `filepath.Walk`. -/
structure WalkEntry where
  path : Str
  isDir : Bool
  err : Option GoError
deriving DecidableEq, Repr

/-- The world outside the program, over a state `ω`: file reads
(`ioutil.ReadFile`, and the read done by `template.ParseFiles`), the YAML
decoder, standard output, the two `promptui` prompts, `os.MkdirAll`,
`os.Create`, writes to a created file, and the sequence of calls
`filepath.Walk` makes on a root as long as the visitor returns `nil`. -/
structure Sys (ω : Type) where
  readFile : Str → ω → Except GoError Str
  unmarshal : Str → Except GoError templateCfg
  print : Str → ω → ω
  promptRun : Str → (Str → Option GoError) → ω → Except GoError Str × ω
  selectRun : Str → List Str → ω → Except GoError (Nat × Str) × ω
  mkdirAll : Str → ω → Option GoError × ω
  create : Str → ω → Option GoError × ω
  write : Str → Str → ω → Option GoError × ω
  walk : Str → ω → List WalkEntry

/-- The package `text/template`, over a type `τ` of parsed templates:
`Parse`, and `Execute` on a `*TemplateContext` (`none` is the nil pointer),
which yields the text written and the error it returns. -/
structure Engine (τ : Type) where
  parse : Str → Except GoError τ
  exec : τ → Option TemplateContext → Str × Option GoError

/-! ## The functions of `lib/template.go` -/

section Program

variable {ω τ : Type}

/-- The function `renderFilename`. -/
def renderFilename (E : Engine τ) (path : Str) (ctx : Option TemplateContext) :
    Except GoError Str :=
  match E.parse path with
  | .error err => .error err
  | .ok filenameTemplate =>
    match E.exec filenameTemplate ctx with
    | (_, some err) => .error err
    | (templatedFilename, none) => .ok templatedFilename

/-- The function `resolveDestinationPath`. -/
def resolveDestinationPath (sourceTemplatePath destinationPath targetFilePath : Str) :
    Str × Option GoError :=
  let relativeToDestination := Replace targetFilePath sourceTemplatePath [] 1
  let relativeToDestination :=
    if HasPrefix relativeToDestination ['/'] then relativeToDestination.drop 1
    else relativeToDestination
  let destination := Join [destinationPath, relativeToDestination]
  (destination, none)

/-- The function `renderFile`. -/
def renderFile (S : Sys ω) (E : Engine τ) (source destination : Str)
    (ctx : Option TemplateContext) (w : ω) : Option GoError × ω :=
  -- template, err := template.ParseFiles(source); if err != nil { return nil }
  match S.readFile source w with
  | .error _ => (none, w)
  | .ok text =>
    match E.parse text with
    | .error _ => (none, w)
    | .ok template =>
      -- fout, err := os.Create(destination); if err != nil { return err }
      match S.create destination w with
      | (some err, w1) => (some err, w1)
      | (none, w1) =>
        -- return template.Execute(fout, ctx)
        match S.write destination (E.exec template ctx).1 w1 with
        | (some err, w2) => (some err, w2)
        | (none, w2) => ((E.exec template ctx).2, w2)

/-- The function `loadTemplateConfig`. -/
def loadTemplateConfig (S : Sys ω) (templatePath : Str) (w : ω) : Except GoError templateCfg :=
  match S.readFile (Join [templatePath, configFilename]) w with
  | .error err => .error err
  | .ok swissConfig => S.unmarshal swissConfig

/-- The `Validate` callback that `buildContext` gives to the free-text
prompt of `param`; `none` accepts the value. -/
def validateRequired (param : templateParam) (value : Str) : Option GoError :=
  if param.Required = true ∧ value.length = 0 then
    some ⟨param.Name ++ " is required".toList⟩
  else none

/-- The loop `for _, param := range config.Params` of `buildContext`, on
the map `ctx.Params`. -/
def buildContextLoop (S : Sys ω) : List templateParam → ParamMap → ω → Except GoError ParamMap × ω
  | [], params, w => (.ok params, w)
  | param :: rest, params, w =>
    if param.Kind = "enum".toList then
      match S.selectRun param.Prompt param.Enum w with
      | (.error err, w1) => (.error err, w1)
      | (.ok (_, result), w1) => buildContextLoop S rest (setParam params param.Name result) w1
    else
      match S.promptRun param.Prompt (validateRequired param) w with
      | (.error err, w1) => (.error err, w1)
      | (.ok result, w1) => buildContextLoop S rest (setParam params param.Name result) w1

/-- The start of `buildContext`: a non-empty description is printed. -/
def printDescription (S : Sys ω) (config : templateCfg) (w : ω) : ω :=
  if config.Description ≠ [] then S.print ('\n' :: config.Description ++ ['\n', '\n']) w
  else w

/-- The function `buildContext`. -/
def buildContext (S : Sys ω) (config : templateCfg) (w : ω) : Except GoError TemplateContext × ω :=
  match buildContextLoop S config.Params emptyParams (printDescription S config w) with
  | (.error err, w1) => (.error err, w1)
  | (.ok params, w1) => (.ok { Params := params }, w1)

/-- The method `Resolve`. -/
def Resolve (S : Sys ω) (t : localTemplate) (w : ω) : localTemplate × Option GoError × ω :=
  match loadTemplateConfig S t.sourcePath w with
  | .error err => (t, some err, w)
  | .ok config =>
    -- t.config = config
    let t1 := { t with config := some config }
    -- ctx, err := buildContext(config); if err != nil { return err }; t.ctx = ctx
    match buildContext S config w with
    | (.error err, w1) => (t1, some err, w1)
    | (.ok ctx, w1) => ({ t1 with ctx := some ctx }, none, w1)

/-- The method `Context`. -/
def Context (t : localTemplate) : Option TemplateContext := t.ctx

/-- The method `SourcePath`. -/
def SourcePath (t : localTemplate) : Str := t.sourcePath

/-- The method `DestinationPath`. -/
def DestinationPath (t : localTemplate) : Str := t.destinationPath

/-- The function literal that `Render` passes to `filepath.Walk`. -/
def visitor (S : Sys ω) (E : Engine τ) (t : localTemplate) (entry : WalkEntry) (w : ω) :
    Option GoError × ω :=
  -- if err != nil { return err }
  match entry.err with
  | some err => (some err, w)
  | none =>
    -- if path == t.sourcePath || filepath.Base(path) == configFilename { return nil }
    if entry.path = t.sourcePath ∨ Base entry.path = configFilename then (none, w)
    else
      match renderFilename E entry.path t.ctx with
      | .error err => (some err, w)
      | .ok filename =>
        match resolveDestinationPath t.sourcePath t.destinationPath filename with
        | (_, some err) => (some err, w)
        | (dst, none) =>
          let w1 := S.print ("Rendering ".toList ++ dst ++ ['\n']) w
          if entry.isDir then S.mkdirAll dst w1
          else renderFile S E entry.path dst t.ctx w1

/-- The iteration of `filepath.Walk` over the calls it makes: it stops at
the first call for which the visitor returns an error, and returns it.  (The
visitor of `Render` never returns `filepath.SkipDir` of its own.) -/
def walkLoop (fn : WalkEntry → ω → Option GoError × ω) : List WalkEntry → ω → Option GoError × ω
  | [], w => (none, w)
  | entry :: entries, w =>
    match fn entry w with
    | (some err, w1) => (some err, w1)
    | (none, w1) => walkLoop fn entries w1

/-- The call `filepath.Walk(root, fn)`. -/
def Walk (S : Sys ω) (root : Str) (fn : WalkEntry → ω → Option GoError × ω) (w : ω) :
    Option GoError × ω :=
  walkLoop fn (S.walk root w) w

/-- The part of `Render` after the instance is resolved: create the
destination directory, then walk the template tree. -/
def renderTree (S : Sys ω) (E : Engine τ) (t : localTemplate) (w : ω) : Option GoError × ω :=
  match S.mkdirAll t.destinationPath w with
  | (some err, w1) => (some err, w1)
  | (none, w1) => Walk S t.sourcePath (visitor S E t) w1

/-- The method `Render`. -/
def Render (S : Sys ω) (E : Engine τ) (t : localTemplate) (w : ω) :
    localTemplate × Option GoError × ω :=
  -- if t.config == nil || t.ctx == nil { if err := t.Resolve(); err != nil { return err } }
  if t.config.isNone ∨ t.ctx.isNone then
    match Resolve S t w with
    | (t1, some err, w1) => (t1, some err, w1)
    | (t1, none, w1) => (t1, renderTree S E t1 w1)
  else (t, renderTree S E t w)

/-! ## Reference definitions taken from the specification -/

/-- The prompt presented for one parameter: single choice among `Enum` for
kind `enum`, validated free text otherwise; the result is the string the
prompt returns. -/
def askParam (S : Sys ω) (param : templateParam) (w : ω) : Except GoError Str × ω :=
  if param.Kind = "enum".toList then
    match S.selectRun param.Prompt param.Enum w with
    | (.error err, w1) => (.error err, w1)
    | (.ok (_, choice), w1) => (.ok choice, w1)
  else S.promptRun param.Prompt (validateRequired param) w

/-- The parameter collection of the specification: the parameters are
resolved in declaration order, each prompt starting where the previous one
left the terminal; the outcome is the list of strings returned, or the first
error. -/
def runPrompts (S : Sys ω) : List templateParam → ω → Except GoError (List Str) × ω
  | [], w => (.ok [], w)
  | param :: rest, w =>
    match askParam S param w with
    | (.error err, w1) => (.error err, w1)
    | (.ok value, w1) =>
      match runPrompts S rest w1 with
      | (.error err, w2) => (.error err, w2)
      | (.ok values, w2) => (.ok (value :: values), w2)

end Program

/-! ## A fragment of `text/template`

The engine is a library outside the repository.  For statements that
depend on what it does with a reference to a parameter, the fragment below
models templates made of literal text and actions holding one field chain
(`.Params.name`, `.Other`), with the default delimiters and the default
`missingkey` option, which the program never changes.  Everything else is
reported as outside the fragment (`none`). -/

/-- A parsed template node: literal text, or an action with a field chain. -/
inductive Node where
  | text (s : Str)
  | field (ident : List Str)
deriving DecidableEq, Repr

/-- The left action delimiter. -/
def leftDelim : Str := ['\x7b', '\x7b']

/-- The right action delimiter. -/
def rightDelim : Str := ['\x7d', '\x7d']

/-- The text printed for a map index that has no entry. -/
def noValue : Str := "<no value>".toList

/-- Space inside an action. -/
def isSpace (c : Char) : Bool := c == ' ' || c == '\t'

/-- A character of a field name. -/
def isAlphaNumeric (c : Char) : Bool := c == '_' || c.isAlpha || c.isDigit

/-- A field name: non-empty, alphanumeric, not starting with a digit. -/
def isFieldName : Str → Bool
  | [] => false
  | c :: s => !c.isDigit && (c :: s).all isAlphaNumeric

/-- Splits `a.b.c` at the dots. -/
def splitFields : Str → List Str
  | [] => [[]]
  | c :: s =>
    if c = '.' then [] :: splitFields s
    else
      match splitFields s with
      | [] => [[c]]
      | f :: fs => (c :: f) :: fs

/-- Removes the spaces on both sides of an action body. -/
def trimSpaces (s : Str) : Str :=
  ((s.dropWhile isSpace).reverse.dropWhile isSpace).reverse

/-- The field chain of an action body of the fragment: `.Params.name`, or a
chain whose first field is not `Params` (which no `TemplateContext` has). -/
def parseAction (body : Str) : Option (List Str) :=
  match trimSpaces body with
  | '.' :: s =>
    let chain := splitFields s
    if chain.all isFieldName ∧ (chain.head? ≠ some "Params".toList ∨ chain.length = 2)
    then some chain else none
  | _ => none

/-- A text node, unless the text is empty. -/
def textNode (s : Str) : List Node :=
  if s = [] then [] else [.text s]

/-- Parsing: text up to the next left delimiter, then an action up to the
next right delimiter.  An action that reaches the end of the input is the
parse error `unclosed action`. -/
def parseNodes : Nat → Str → Option (Except GoError (List Node))
  | 0, _ => none
  | fuel + 1, input =>
    match Index input leftDelim with
    | none => some (.ok (textNode input))
    | some i =>
      let after := input.drop (i + 2)
      match Index after rightDelim with
      | none =>
        if trimSpaces after = [] ∨ (parseAction after).isSome then
          some (.error ⟨"unclosed action".toList⟩)
        else none
      | some j =>
        match parseAction (after.take j) with
        | none => none
        | some chain =>
          match parseNodes fuel (after.drop (j + 2)) with
          | none => none
          | some (.error err) => some (.error err)
          | some (.ok nodes) => some (.ok (textNode (input.take i) ++ .field chain :: nodes))

/-- Parsing of a whole template text of the fragment. -/
def parseFragment (input : Str) : Option (Except GoError (List Node)) :=
  parseNodes (input.length + 1) input

/-- Evaluation of a field chain on a `*TemplateContext`: `.Params.k` is the
map entry, printed as itself, or `<no value>` when the map has no entry for
`k`; a first field other than `Params` is an execution error. -/
def evalField (ctx : Option TemplateContext) : List Str → Except GoError Str
  | [] => .error ⟨"outside the modelled fragment".toList⟩
  | f :: fs =>
    if f = "Params".toList then
      match ctx, fs with
      | none, _ => .error ⟨"nil pointer evaluating *lib.TemplateContext.Params".toList⟩
      | some c, [k] => .ok ((c.Params k).getD noValue)
      | some _, _ => .error ⟨"outside the modelled fragment".toList⟩
    else .error ⟨"cannot evaluate field ".toList ++ f ++ " in type *lib.TemplateContext".toList⟩

/-- Execution: the nodes are written in order; the first failing action
stops the execution, what was written before it stays written. -/
def execNodes (ctx : Option TemplateContext) : List Node → Str × Option GoError
  | [] => ([], none)
  | .text s :: nodes => (s ++ (execNodes ctx nodes).1, (execNodes ctx nodes).2)
  | .field ident :: nodes =>
    match evalField ctx ident with
    | .error err => ([], some err)
    | .ok value => (value ++ (execNodes ctx nodes).1, (execNodes ctx nodes).2)

/-- The fragment as an engine. -/
def textTemplate : Engine (List Node) where
  parse := fun s =>
    match parseFragment s with
    | some r => r
    | none => .error ⟨"outside the modelled fragment".toList⟩
  exec := fun t ctx => execNodes ctx t

/-! ## A simulated world, used to run the program on concrete inputs -/

/-- What the user does at one prompt. -/
inductive Reply where
  | value (s : Str)
  | abort (err : GoError)
deriving DecidableEq, Repr

/-- A small world: readable files, the calls a walk of the template root
makes, the replies the user is going to give, and what the program has
produced: labels shown, text printed, files written; `dirs` holds the
directories that exist, apart from the current directory and `/`, which
always do. -/
structure Sim where
  sources : List (Str × Str)
  entries : List WalkEntry
  replies : List Reply
  shown : List Str
  stdout : List Str
  dirs : List Str
  files : List (Str × Str)
deriving DecidableEq, Repr

/-- A free-text prompt: replies are read until one passes the validation;
an abort, or the end of the input, is an error. -/
def Sim.promptLoop (validate : Str → Option GoError) : List Reply → Except GoError Str × List Reply
  | [] => (.error ⟨"EOF".toList⟩, [])
  | .abort err :: rest => (.error err, rest)
  | .value v :: rest =>
    if validate v = none then (.ok v, rest) else Sim.promptLoop validate rest

/-- A single-choice prompt: the reply has to be one of the items. -/
def Sim.choose (items : List Str) : List Reply → Except GoError (Nat × Str) × List Reply
  | [] => (.error ⟨"EOF".toList⟩, [])
  | .abort err :: rest => (.error err, rest)
  | .value v :: rest =>
    if v ∈ items then (.ok (items.indexOf v, v), rest)
    else (.error ⟨"not a choice".toList⟩, rest)

/-- A cleaned path preceded by its parent directories, outermost first, up
to the current directory or `/`. -/
def Sim.withParents : Nat → Str → List Str
  | 0, _ => []
  | fuel + 1, path =>
    if path = ['.'] ∨ path = ['/'] then []
    else Sim.withParents fuel (Dir path) ++ [path]

/-- A directory exists: it is the current directory, `/`, or one that was
there or has been made. -/
def Sim.dirExists (w : Sim) (path : Str) : Bool :=
  path == ['.'] || path == ['/'] || w.dirs.contains path

/-- The call `os.MkdirAll(path)`: the directory and the missing parents are
made; it fails when one of them is an existing file. -/
def Sim.mkdirAll (path : Str) (w : Sim) : Option GoError × Sim :=
  let wanted := Sim.withParents ((Clean path).length + 1) (Clean path)
  if wanted.any (fun d => (w.files.map Prod.fst).contains d) then
    (some ⟨"mkdir ".toList ++ path ++ ": not a directory".toList⟩, w)
  else (none, { w with dirs := w.dirs ++ wanted.filter (fun d => !w.dirs.contains d) })

/-- The call `os.Create(path)`: the file is created or truncated; it fails
when the parent directory does not exist, or when the path is a
directory. -/
def Sim.create (path : Str) (w : Sim) : Option GoError × Sim :=
  if !Sim.dirExists w (Dir path) then
    (some ⟨"open ".toList ++ path ++ ": no such file or directory".toList⟩, w)
  else if w.dirs.contains path then
    (some ⟨"open ".toList ++ path ++ ": is a directory".toList⟩, w)
  else (none, { w with files := w.files.filter (fun f => f.1 ≠ path) ++ [(path, [])] })

/-- The simulated collaborators; the YAML decoder yields `schema` for
every config file. -/
def simSys (schema : templateCfg) : Sys Sim where
  readFile := fun path w =>
    match w.sources.lookup path with
    | some content => .ok content
    | none => .error ⟨"no such file".toList⟩
  unmarshal := fun _ => .ok schema
  print := fun s w => { w with stdout := w.stdout ++ [s] }
  promptRun := fun label validate w =>
    ((Sim.promptLoop validate w.replies).1,
      { w with shown := w.shown ++ [label], replies := (Sim.promptLoop validate w.replies).2 })
  selectRun := fun label items w =>
    ((Sim.choose items w.replies).1,
      { w with shown := w.shown ++ [label], replies := (Sim.choose items w.replies).2 })
  mkdirAll := Sim.mkdirAll
  create := Sim.create
  write := fun path s w =>
    (none, { w with files := w.files.map (fun f => if f.1 = path then (f.1, f.2 ++ s) else f) })
  walk := fun _ w => w.entries

/-- A required free-text parameter. -/
def projectParam : templateParam :=
  { Name := "project".toList, Required := true, Kind := [], Prompt := "Project name".toList,
    Enum := [] }

/-- An enum parameter with two choices. -/
def licenseParam : templateParam :=
  { Name := "license".toList, Required := false, Kind := "enum".toList,
    Prompt := "License".toList, Enum := ["MIT".toList, "Apache-2.0".toList] }

/-- A schema with one required free-text parameter and one enum parameter. -/
def demoCfg : templateCfg :=
  { Version := "1".toList
    Description := []
    Params := [projectParam, licenseParam] }

/-- A world with the template `tpl`: the config file, a directory named
after the project, and a readme in it. -/
def demoWorld (replies : List Reply) : Sim :=
  { sources :=
      [ ("tpl/.new.yml".toList, "params".toList),
        ("tpl/\x7b\x7b.Params.project\x7d\x7d/README.md".toList,
          "# \x7b\x7b.Params.project\x7d\x7d (\x7b\x7b.Params.license\x7d\x7d)".toList) ]
    entries :=
      [ ⟨"tpl".toList, true, none⟩,
        ⟨"tpl/.new.yml".toList, false, none⟩,
        ⟨"tpl/\x7b\x7b.Params.project\x7d\x7d".toList, true, none⟩,
        ⟨"tpl/\x7b\x7b.Params.project\x7d\x7d/README.md".toList, false, none⟩ ]
    replies := replies
    shown := []
    stdout := []
    dirs := []
    files := [] }

/-- A string without its leading `/`, if it has one (exactly one is
removed). -/
def withoutLeadingSlash : Str → Str
  | '/' :: r => r
  | s => s

/-- The map obtained from `m` by the assignments `m[key] = value` for the
given pairs, first to last. -/
def collectInto (m : ParamMap) (pairs : List (Str × Str)) : ParamMap :=
  pairs.foldl (fun acc kv => setParam acc kv.1 kv.2) m

/-- The free-text prompt keeps its contract: a value it returns was
accepted by the validation callback it was given. -/
def HonoursValidation {ω : Type} (S : Sys ω) : Prop :=
  ∀ (label : Str) (validate : Str → Option GoError) (w : ω) (v : Str),
    (S.promptRun label validate w).1 = .ok v → validate v = none

/-- A world with the template `tpl` holding a file that does not parse (its
content is an action that is never closed) and a file that does. -/
def brokenWorld : Sim :=
  { sources :=
      [ ("tpl/.new.yml".toList, "params".toList),
        ("tpl/bad.txt".toList, "\x7b\x7b".toList),
        ("tpl/good.txt".toList, "fine".toList) ]
    entries :=
      [ ⟨"tpl".toList, true, none⟩,
        ⟨"tpl/.new.yml".toList, false, none⟩,
        ⟨"tpl/bad.txt".toList, false, none⟩,
        ⟨"tpl/good.txt".toList, false, none⟩ ]
    replies := []
    shown := []
    stdout := []
    dirs := []
    files := [] }

/-- A resolved instance for the template `tpl` and the destination `out`,
with the parameter `project` set to `widget`. -/
def resolvedDemo : localTemplate :=
  { config := some demoCfg
    sourcePath := "tpl".toList
    destinationPath := "out".toList
    ctx := some ⟨setParam emptyParams "project".toList "widget".toList⟩ }


/-- The text of a reference to the parameter `k`: the action
`.Params.k` between the delimiters, with one space on each side. -/
def paramReference (k : Str) : Str :=
  leftDelim ++ " .Params.".toList ++ k ++ [' '] ++ rightDelim

/-- A world with the template `tpl` holding one file, which refers to a
parameter named `missing`; the destination directory `out` exists. -/
def missingWorld : Sim :=
  { sources :=
      [ ("tpl/.new.yml".toList, "params".toList),
        ("tpl/hello.txt".toList, "Hello \x7b\x7b .Params.missing \x7d\x7d!".toList) ]
    entries :=
      [ ⟨"tpl".toList, true, none⟩,
        ⟨"tpl/.new.yml".toList, false, none⟩,
        ⟨"tpl/hello.txt".toList, false, none⟩ ]
    replies := []
    shown := []
    stdout := []
    dirs := ["out".toList]
    files := [] }


/-- A world with the template directory `tpl` holding the file `a`, as a
walk started at the root `./tpl` reports it: the root as given, the entry as
`filepath.Join` of the root and the name. -/
def uncleanWorld : Sim :=
  { sources := [ ("tpl/a".toList, "hi".toList) ]
    entries :=
      [ ⟨"./tpl".toList, true, none⟩,
        ⟨Join ["./tpl".toList, "a".toList], false, none⟩ ]
    replies := []
    shown := []
    stdout := []
    dirs := []
    files := [] }

/-- A world with the template directory `tpl` holding the directory `sub`
with the file `a` in it, as a walk started at the root `./tpl` reports
it. -/
def uncleanNestedWorld : Sim :=
  { sources := [ ("tpl/sub/a".toList, "hi".toList) ]
    entries :=
      [ ⟨"./tpl".toList, true, none⟩,
        ⟨Join ["./tpl".toList, "sub".toList], true, none⟩,
        ⟨Join [Join ["./tpl".toList, "sub".toList], "a".toList], false, none⟩ ]
    replies := []
    shown := []
    stdout := []
    dirs := []
    files := [] }

/-- A world whose current directory is the template, holding the config
file and the file `a.txt`, as a walk started at the root `.` reports it. -/
def dotWorld : Sim :=
  { sources := [ (".new.yml".toList, "params".toList), ("a.txt".toList, "hi".toList) ]
    entries :=
      [ ⟨".".toList, true, none⟩,
        ⟨Join [".".toList, ".new.yml".toList], false, none⟩,
        ⟨Join [".".toList, "a.txt".toList], false, none⟩ ]
    replies := []
    shown := []
    stdout := []
    dirs := []
    files := [] }

/-! ## Lemmas on `strings` -/

theorem HasPrefix_append (old rest : Str) : HasPrefix (old ++ rest) old = true := by
  unfold HasPrefix
  rw [List.isPrefixOf_iff_prefix]
  exact List.prefix_append old rest

theorem Index_append_self (old rest : Str) (h : old ≠ []) : Index (old ++ rest) old = some 0 := by
  cases old with
  | nil => exact absurd rfl h
  | cons c s =>
    have hp := HasPrefix_append (c :: s) rest
    simp only [List.cons_append] at hp ⊢
    simp [Index, hp]

theorem Count_append_self (old rest : Str) (h : old ≠ []) : Count (old ++ rest) old ≠ 0 := by
  unfold Count
  rw [if_neg h]
  simp [countLoop, Index_append_self old rest h]

/-- Removing the first occurrence of `old` from `old ++ rest` leaves `rest`:
the first occurrence is the leading one. -/
theorem Replace_append_self (old rest : Str) : Replace (old ++ rest) old [] 1 = rest := by
  by_cases h : old = []
  · subst h
    simp [Replace]
  · have hc := Count_append_self old rest h
    have hi := Index_append_self old rest h
    have hk : (if (1 : Int) < 0 ∨ ((Count (old ++ rest) old : Nat) : Int) < 1
        then Count (old ++ rest) old else (1 : Int).toNat) = 1 := by
      have h1 : ¬ ((1 : Int) < 0 ∨ ((Count (old ++ rest) old : Nat) : Int) < 1) := by
        omega
      rw [if_neg h1]
      rfl
    unfold Replace
    rw [if_neg (by simp [h]), if_neg hc]
    simp only [hk]
    simp [replaceLoop, h, hi]

/-! ## Lemmas on `filepath.Clean` -/

theorem atElementEnd_append_slash (l : Str) : atElementEnd (l ++ ['/']) = atElementEnd l := by
  cases l <;> simp [atElementEnd]

theorem takeWhile_append_slash (l : Str) :
    (l ++ ['/']).takeWhile (· ≠ '/') = l.takeWhile (· ≠ '/') := by
  induction l with
  | nil => simp
  | cons c l ih =>
    by_cases h : c = '/'
    · simp [List.takeWhile_cons, h]
    · simpa [List.takeWhile_cons, h] using ih

theorem dropWhile_append_slash (l : Str) :
    (l ++ ['/']).dropWhile (· ≠ '/') = l.dropWhile (· ≠ '/') ++ ['/'] := by
  induction l with
  | nil => simp
  | cons c l ih =>
    by_cases h : c = '/'
    · simp [List.dropWhile_cons, h]
    · simpa [List.dropWhile_cons, h] using ih

theorem length_dropWhile_le (p : Char → Bool) (l : Str) : (l.dropWhile p).length ≤ l.length := by
  induction l with
  | nil => simp
  | cons c l ih =>
    simp only [List.dropWhile_cons]
    split
    · simp only [List.length_cons]; omega
    · exact Nat.le_refl _

/-- The loop of `Clean` does not depend on the fuel once there is at least
one unit per remaining character: it never runs out. -/
theorem cleanLoop_fuel (rooted : Bool) :
    ∀ (f1 f2 : Nat) (path out : Str) (dotdot : Nat),
      path.length ≤ f1 → path.length ≤ f2 →
      cleanLoop rooted f1 path out dotdot = cleanLoop rooted f2 path out dotdot := by
  intro f1
  induction f1 with
  | zero =>
    intro f2 path out dotdot h1 _
    have hp : path = [] := List.length_eq_zero.mp (Nat.le_zero.mp h1)
    subst hp
    cases f2 <;> simp [cleanLoop]
  | succ f1 ih =>
    intro f2 path out dotdot h1 h2
    cases path with
    | nil => cases f2 <;> simp [cleanLoop]
    | cons c rest =>
      cases f2 with
      | zero => simp at h2
      | succ f2 =>
        simp only [List.length_cons, Nat.add_le_add_iff_right] at h1 h2
        have hd1 : (rest.drop 1).length ≤ f1 := by simp only [List.length_drop]; omega
        have hd2 : (rest.drop 1).length ≤ f2 := by simp only [List.length_drop]; omega
        simp only [cleanLoop]
        split
        · exact ih f2 rest out dotdot h1 h2
        · rename_i hc
          split
          · exact ih f2 rest out dotdot h1 h2
          · split
            · split
              · exact ih f2 _ _ _ hd1 hd2
              · split
                · exact ih f2 _ _ _ hd1 hd2
                · exact ih f2 _ _ _ hd1 hd2
            · have hw : ((c :: rest).dropWhile (· ≠ '/')) = rest.dropWhile (· ≠ '/') := by
                simp [List.dropWhile_cons, hc]
              rw [hw]
              have hl := length_dropWhile_le (· ≠ '/') rest
              exact ih f2 _ _ _ (by omega) (by omega)

/-- A trailing slash adds an empty path element, which the loop of `Clean`
skips. -/
theorem cleanLoop_append_slash (rooted : Bool) :
    ∀ (n : Nat) (path out : Str) (dotdot : Nat), path.length ≤ n →
      cleanLoop rooted (n + 1) (path ++ ['/']) out dotdot = cleanLoop rooted n path out dotdot := by
  intro n
  induction n with
  | zero =>
    intro path out dotdot h
    have hp : path = [] := List.length_eq_zero.mp (Nat.le_zero.mp h)
    subst hp
    simp [cleanLoop]
  | succ n ih =>
    intro path out dotdot h
    cases path with
    | nil =>
      cases n <;> simp [cleanLoop]
    | cons c rest =>
      simp only [List.length_cons, Nat.add_le_add_iff_right] at h
      have hd : (rest.drop 1).length ≤ n := by simp only [List.length_drop]; omega
      have hhead : ((rest ++ ['/']).head? = some '.') ↔ (rest.head? = some '.') := by
        cases rest <;> simp
      have hdrop : rest.head? = some '.' → (rest ++ ['/']).drop 1 = rest.drop 1 ++ ['/'] := by
        cases rest <;> simp
      rw [List.cons_append]
      simp only [cleanLoop, atElementEnd_append_slash]
      by_cases h1 : c = '/'
      · rw [if_pos h1, if_pos h1]
        exact ih rest out dotdot h
      · rw [if_neg h1, if_neg h1]
        by_cases h2 : c = '.' ∧ atElementEnd rest = true
        · rw [if_pos h2, if_pos h2]
          exact ih rest out dotdot h
        · rw [if_neg h2, if_neg h2]
          by_cases hdd : c = '.' ∧ rest.head? = some '.' ∧ atElementEnd (rest.drop 1) = true
          · have hdd2 : c = '.' ∧ (rest ++ ['/']).head? = some '.' ∧
                atElementEnd ((rest ++ ['/']).drop 1) = true := by
              refine ⟨hdd.1, hhead.mpr hdd.2.1, ?_⟩
              rw [hdrop hdd.2.1, atElementEnd_append_slash]
              exact hdd.2.2
            rw [if_pos hdd, if_pos hdd2, hdrop hdd.2.1]
            split
            · exact ih _ _ _ hd
            · split
              · exact ih _ _ _ hd
              · exact ih _ _ _ hd
          · have hdd2 : ¬ (c = '.' ∧ (rest ++ ['/']).head? = some '.' ∧
                atElementEnd ((rest ++ ['/']).drop 1) = true) := by
              intro hx
              apply hdd
              refine ⟨hx.1, hhead.mp hx.2.1, ?_⟩
              have h3 := hx.2.2
              rw [hdrop (hhead.mp hx.2.1), atElementEnd_append_slash] at h3
              exact h3
            rw [if_neg hdd, if_neg hdd2]
            have e1 : ((c :: (rest ++ ['/'])).dropWhile (· ≠ '/'))
                = (c :: rest).dropWhile (· ≠ '/') ++ ['/'] := by
              have := dropWhile_append_slash (c :: rest)
              rwa [List.cons_append] at this
            have e2 : ((c :: (rest ++ ['/'])).takeWhile (· ≠ '/'))
                = (c :: rest).takeWhile (· ≠ '/') := by
              have := takeWhile_append_slash (c :: rest)
              rwa [List.cons_append] at this
            rw [e1, e2]
            have hw : ((c :: rest).dropWhile (· ≠ '/')) = rest.dropWhile (· ≠ '/') := by
              simp [List.dropWhile_cons, h1]
            have hl := length_dropWhile_le (· ≠ '/') rest
            exact ih _ _ _ (by rw [hw]; omega)

/-- Cleaning ignores one trailing slash. -/
theorem Clean_append_slash (d : Str) (h : d ≠ []) : Clean (d ++ ['/']) = Clean d := by
  cases d with
  | nil => exact absurd rfl h
  | cons c s =>
    have key : ∀ (rooted : Bool) (path out : Str) (dotdot : Nat), path.length ≤ s.length + 1 →
        cleanLoop rooted (s.length + 1 + 1 + 1) (path ++ ['/']) out dotdot
          = cleanLoop rooted (s.length + 1 + 1) path out dotdot := by
      intro rooted path out dotdot hp
      rw [cleanLoop_append_slash rooted (s.length + 1 + 1) path out dotdot (by omega)]
    unfold Clean
    simp only [List.cons_append, List.length_cons, List.length_append, List.length_nil,
      List.head?_cons, List.drop_succ_cons, List.drop_zero, reduceCtorEq, if_false]
    have k1 := key (some c == some '/') s ['/'] 1 (by omega)
    have k2 := key (some c == some '/') (c :: s) [] 0 (by simp)
    simp only [List.cons_append] at k2
    rw [k1, k2]

/-! ## Claims on `resolveDestinationPath` -/

/-- C1: `resolveDestinationPath` is prefix-correct.  For every source root,
destination root and string `rest`, on the target `sourceRoot ++ rest` it
returns a nil error and the path `filepath.Join(destinationRoot, rest1)`,
where `rest1` is `rest` without its leading `/` if it has one (exactly one
is removed) and `rest` otherwise: the occurrence of the root that
`strings.Replace` removes is the leading one. -/
theorem resolveDestinationPath_prefix_correct (sourceRoot destinationRoot rest : Str) :
    resolveDestinationPath sourceRoot destinationRoot (sourceRoot ++ rest)
      = (Join [destinationRoot, withoutLeadingSlash rest], none) := by
  unfold resolveDestinationPath
  simp only [Replace_append_self]
  cases rest with
  | nil => simp [HasPrefix, withoutLeadingSlash]
  | cons c r =>
    by_cases hc : c = '/'
    · subst hc
      simp [HasPrefix, withoutLeadingSlash]
    · have hw : withoutLeadingSlash (c :: r) = c :: r := by
        unfold withoutLeadingSlash
        split
        · rename_i heq
          exact absurd (List.cons.inj heq).1 hc
        · rfl
      have hc2 : ¬ '/' = c := fun h => hc h.symm
      simp [HasPrefix, hw, hc2]

/-- C8, as stated, fails: with the destination root `./out` the path computed
for the template root is `out`, not `./out`. -/
theorem resolveDestinationPath_root_not_destination :
    resolveDestinationPath "tpl".toList "./out".toList "tpl".toList = ("out".toList, none)
      ∧ ¬ ((resolveDestinationPath "tpl".toList "./out".toList "tpl".toList).1
            = "./out".toList) := by
  decide

/-- C8, amended: for every source root and destination root,
`resolveDestinationPath(sourceRoot, destinationRoot, sourceRoot)` returns a
nil error and the path `filepath.Join(destinationRoot, "")`, which is the
empty string for an empty destination root and `filepath.Clean` of the
destination root otherwise; it is the destination root itself exactly when
that is empty or already clean. -/
theorem resolveDestinationPath_root (sourceRoot destinationRoot : Str) :
    resolveDestinationPath sourceRoot destinationRoot sourceRoot
        = (if destinationRoot = [] then [] else Clean destinationRoot, none)
      ∧ ((resolveDestinationPath sourceRoot destinationRoot sourceRoot).1 = destinationRoot
          ↔ (destinationRoot = [] ∨ Clean destinationRoot = destinationRoot)) := by
  have hrep : Replace sourceRoot sourceRoot [] 1 = [] := by
    have := Replace_append_self sourceRoot []
    rwa [List.append_nil] at this
  have hj : Join [destinationRoot, []]
      = if destinationRoot = [] then [] else Clean destinationRoot := by
    by_cases hd : destinationRoot = []
    · subst hd
      simp [Join]
    · have hi : List.intercalate ['/'] [destinationRoot, []] = destinationRoot ++ ['/'] := by
        simp [List.intercalate]
      simp only [Join, ne_eq, hd, not_false_eq_true, if_true, if_false, hi]
      exact Clean_append_slash destinationRoot hd
  have h : resolveDestinationPath sourceRoot destinationRoot sourceRoot
      = (if destinationRoot = [] then [] else Clean destinationRoot, none) := by
    unfold resolveDestinationPath
    simp only [hrep]
    have hp : HasPrefix [] ['/'] = false := by decide
    simp only [hp, Bool.false_eq_true, if_false, hj]
  rw [h]
  refine ⟨rfl, ?_⟩
  by_cases hd : destinationRoot = []
  · simp [hd]
  · simp [hd]

/-- C10, evaluated where it fails.  For the template root `./tpl` the walk
reports the entry `a` as `filepath.Join("./tpl", "a")`, that is `tpl/a`; the
root is not a prefix of it, nothing is removed, and the destination is
`out/tpl/a` instead of `filepath.Join("out", "a")`.  For the root `.` the
entry `a.txt` is reported as `a.txt`; the root is not a prefix, the first
dot of the name is removed, and the destination is `out/atxt`.  A `Render`
of `./tpl` into `out` makes the directory `out`, announces `out/tpl/a` and
returns the error of creating that file, whose directory does not exist;
nothing is written.  With the file inside a directory `sub`, the directory
`out/tpl/sub` is made and the file is written to `out/tpl/sub/a`.  A
`Render` of `.` into `/out` writes `a.txt` to `/out/atxt`. -/
theorem render_destination_for_unclean_roots :
    (Join ["./tpl".toList, "a".toList] = "tpl/a".toList
      ∧ HasPrefix "tpl/a".toList "./tpl".toList = false
      ∧ renderFilename textTemplate "tpl/a".toList (some ⟨emptyParams⟩) = .ok "tpl/a".toList
      ∧ resolveDestinationPath "./tpl".toList "out".toList "tpl/a".toList
          = ("out/tpl/a".toList, none)
      ∧ Join ["out".toList, "a".toList] = "out/a".toList)
    ∧ (Join [".".toList, "a.txt".toList] = "a.txt".toList
      ∧ HasPrefix "a.txt".toList ".".toList = false
      ∧ renderFilename textTemplate "a.txt".toList (some ⟨emptyParams⟩) = .ok "a.txt".toList
      ∧ resolveDestinationPath ".".toList "out".toList "a.txt".toList
          = ("out/atxt".toList, none)
      ∧ Join ["out".toList, "a.txt".toList] = "out/a.txt".toList)
    ∧ (Render (simSys demoCfg) textTemplate
          { config := some demoCfg, sourcePath := "./tpl".toList,
            destinationPath := "out".toList, ctx := some ⟨emptyParams⟩ } uncleanWorld).2
        = (some ⟨"open out/tpl/a: no such file or directory".toList⟩,
            { uncleanWorld with
              stdout := ["Rendering out/tpl/a\n".toList]
              dirs := ["out".toList]
              files := [] })
    ∧ (Render (simSys demoCfg) textTemplate
          { config := some demoCfg, sourcePath := "./tpl".toList,
            destinationPath := "out".toList, ctx := some ⟨emptyParams⟩ } uncleanNestedWorld).2
        = (none,
            { uncleanNestedWorld with
              stdout := ["Rendering out/tpl/sub\n".toList, "Rendering out/tpl/sub/a\n".toList]
              dirs := ["out".toList, "out/tpl".toList, "out/tpl/sub".toList]
              files := [("out/tpl/sub/a".toList, "hi".toList)] })
    ∧ (Render (simSys demoCfg) textTemplate
          { config := some demoCfg, sourcePath := ".".toList,
            destinationPath := "/out".toList, ctx := some ⟨emptyParams⟩ } dotWorld).2
        = (none,
            { dotWorld with
              stdout := ["Rendering /out/atxt\n".toList]
              dirs := ["/out".toList]
              files := [("/out/atxt".toList, "hi".toList)] }) := by
  refine ⟨⟨?_, ?_, ?_, ?_, ?_⟩, ⟨?_, ?_, ?_, ?_, ?_⟩, ?_, ?_, ?_⟩ <;> rfl

/-! ## Claims on the tree walk -/

/-- C2, as stated, fails: an entry named `.new.yml` for which the walk
reports an error makes the visitor return that error. -/
theorem visitor_config_entry_with_walk_error :
    Base "tpl/a/.new.yml".toList = configFilename
      ∧ ¬ ((visitor (simSys demoCfg) textTemplate resolvedDemo
              ⟨"tpl/a/.new.yml".toList, false, some ⟨"permission denied".toList⟩⟩
              (demoWorld [])).1 = none) := by
  decide

/-- C2, amended: the config file is never rendered, at any nesting depth.
For every entry the walk visits whose base name is `.new.yml`, and for the
entry whose path is the template root, the visitor renders no filename and
creates no destination file or directory (the world is left as it is, for
every template engine), and it returns no error when the walk reported none
for that entry; when the walk reported an error for the entry, the visitor
returns that error. -/
theorem visitor_skips_root_and_config {ω τ : Type} (S : Sys ω) (E : Engine τ)
    (t : localTemplate) (entry : WalkEntry) (w : ω)
    (h : entry.path = t.sourcePath ∨ Base entry.path = configFilename) :
    visitor S E t entry w = (entry.err, w) := by
  unfold visitor
  cases he : entry.err with
  | some err => rfl
  | none => simp [h]

/-- C2, amended, at a config file three directories deep. -/
theorem visitor_skips_root_and_config_witness :
    ("tpl/a/b/.new.yml".toList = resolvedDemo.sourcePath
        ∨ Base "tpl/a/b/.new.yml".toList = configFilename)
      ∧ visitor (simSys demoCfg) textTemplate resolvedDemo
          ⟨"tpl/a/b/.new.yml".toList, false, none⟩ (demoWorld [])
        = (none, demoWorld []) :=
  ⟨by decide,
    visitor_skips_root_and_config (simSys demoCfg) textTemplate resolvedDemo
      ⟨"tpl/a/b/.new.yml".toList, false, none⟩ (demoWorld []) (by decide)⟩

/-- C3, what the code does: when the content of the source file does not
parse as a template, `renderFile` returns a nil error and leaves the world
as it is (no destination file is created), so the walk goes on with the next
entry. -/
theorem renderFile_parse_failure_returns_nil {ω τ : Type} (S : Sys ω) (E : Engine τ)
    (source destination text : Str) (ctx : Option TemplateContext) (w : ω) (err : GoError)
    (hread : S.readFile source w = .ok text) (hparse : E.parse text = .error err) :
    renderFile S E source destination ctx w = (none, w) := by
  unfold renderFile
  simp [hread, hparse]

/-- C3 at the failing input: the file `tpl/bad.txt` holds an unclosed
action, parsing it fails, `renderFile` returns nil, and `Render` returns nil
after rendering the next file. -/
theorem renderFile_parse_failure_returns_nil_witness :
    ((simSys demoCfg).readFile "tpl/bad.txt".toList brokenWorld = .ok "\x7b\x7b".toList
      ∧ textTemplate.parse "\x7b\x7b".toList = .error ⟨"unclosed action".toList⟩
      ∧ renderFile (simSys demoCfg) textTemplate "tpl/bad.txt".toList "out/bad.txt".toList
          resolvedDemo.ctx brokenWorld = (none, brokenWorld))
    ∧ ((Render (simSys demoCfg) textTemplate resolvedDemo brokenWorld).2.1 = none
      ∧ (Render (simSys demoCfg) textTemplate resolvedDemo brokenWorld).2.2.files
          = [("out/good.txt".toList, "fine".toList)]) :=
  ⟨⟨by rfl, by rfl,
    renderFile_parse_failure_returns_nil (simSys demoCfg) textTemplate "tpl/bad.txt".toList
      "out/bad.txt".toList "\x7b\x7b".toList resolvedDemo.ctx brokenWorld
      ⟨"unclosed action".toList⟩ (by rfl) (by rfl)⟩,
   by decide, by decide⟩

/-! ## Lemmas on parameter collection -/

theorem collectInto_nil (m : ParamMap) : collectInto m [] = m := rfl

theorem collectInto_cons (m : ParamMap) (kv : Str × Str) (pairs : List (Str × Str)) :
    collectInto m (kv :: pairs) = collectInto (setParam m kv.1 kv.2) pairs := rfl

theorem collectInto_of_not_mem (pairs : List (Str × Str)) :
    ∀ (m : ParamMap) (k : Str), k ∉ pairs.map Prod.fst → collectInto m pairs k = m k := by
  induction pairs with
  | nil => intro m k _; rfl
  | cons kv pairs ih =>
    intro m k hk
    simp only [List.map_cons, List.mem_cons, not_or] at hk
    rw [collectInto_cons, ih _ k hk.2]
    simp [setParam, hk.1]

theorem collectInto_of_mem (pairs : List (Str × Str)) :
    ∀ (m : ParamMap) (k v : Str), (pairs.map Prod.fst).Nodup → (k, v) ∈ pairs →
      collectInto m pairs k = some v := by
  induction pairs with
  | nil => intro m k v _ h; simp at h
  | cons kv pairs ih =>
    intro m k v hnd hmem
    simp only [List.map_cons, List.nodup_cons] at hnd
    rw [collectInto_cons]
    rcases List.mem_cons.mp hmem with h | h
    · subst h
      rw [collectInto_of_not_mem pairs _ _ hnd.1]
      simp [setParam]
    · exact ih _ k v hnd.2 h

theorem collectInto_isSome (pairs : List (Str × Str)) :
    ∀ (m : ParamMap) (k : Str),
      (collectInto m pairs k).isSome = true ↔ ((m k).isSome = true ∨ k ∈ pairs.map Prod.fst) := by
  induction pairs with
  | nil => intro m k; simp [collectInto_nil]
  | cons kv pairs ih =>
    intro m k
    rw [collectInto_cons, ih]
    by_cases hk : k = kv.1
    · simp [setParam, hk]
    · simp [setParam, hk]

/-- The loop of `buildContext` refines the collection of the specification:
it fails with the first error of the prompts, and otherwise assigns the
returned strings to the declared names, in declaration order. -/
theorem buildContextLoop_eq {ω : Type} (S : Sys ω) :
    ∀ (ps : List templateParam) (m : ParamMap) (w : ω),
      buildContextLoop S ps m w =
        match runPrompts S ps w with
        | (.error err, w1) => (.error err, w1)
        | (.ok values, w1) =>
          (.ok (collectInto m (List.zip (ps.map (fun p => p.Name)) values)), w1) := by
  intro ps
  induction ps with
  | nil => intro m w; rfl
  | cons p ps ih =>
    intro m w
    by_cases hk : p.Kind = "enum".toList
    · simp only [buildContextLoop, runPrompts, askParam, hk, if_true]
      rcases hs : S.selectRun p.Prompt p.Enum w with ⟨r, w1⟩
      cases r with
      | error err => rfl
      | ok iv =>
        simp only [ih]
        rcases hr : runPrompts S ps w1 with ⟨r2, w2⟩
        cases r2 with
        | error err => rfl
        | ok values => rfl
    · simp only [buildContextLoop, runPrompts, askParam, hk, if_false]
      rcases hs : S.promptRun p.Prompt (validateRequired p) w with ⟨r, w1⟩
      cases r with
      | error err => rfl
      | ok v =>
        simp only [ih]
        rcases hr : runPrompts S ps w1 with ⟨r2, w2⟩
        cases r2 with
        | error err => rfl
        | ok values => rfl

theorem runPrompts_length {ω : Type} (S : Sys ω) :
    ∀ (ps : List templateParam) (w w1 : ω) (values : List Str),
      runPrompts S ps w = (.ok values, w1) → values.length = ps.length := by
  intro ps
  induction ps with
  | nil =>
    intro w w1 values h
    simp only [runPrompts, Prod.mk.injEq, Except.ok.injEq] at h
    rw [← h.1]
    rfl
  | cons p ps ih =>
    intro w w1 values h
    simp only [runPrompts] at h
    rcases ha : askParam S p w with ⟨r, w2⟩
    rw [ha] at h
    cases r with
    | error err => simp at h
    | ok v =>
      simp only at h
      rcases hr : runPrompts S ps w2 with ⟨r2, w3⟩
      rw [hr] at h
      cases r2 with
      | error err => simp at h
      | ok vs =>
        simp only [Prod.mk.injEq, Except.ok.injEq] at h
        rw [← h.1]
        simp [ih w2 w3 vs hr]

/-- With a prompt that keeps its contract, the string accepted for a
required free-text parameter is not empty. -/
theorem runPrompts_required_nonempty {ω : Type} (S : Sys ω) (hS : HonoursValidation S) :
    ∀ (ps : List templateParam) (w w1 : ω) (values : List Str),
      runPrompts S ps w = (.ok values, w1) →
      ∀ (p : templateParam) (v : Str), (p, v) ∈ List.zip ps values →
        p.Kind ≠ "enum".toList → p.Required = true → v.length ≠ 0 := by
  intro ps
  induction ps with
  | nil =>
    intro w w1 values _ p v hmem
    simp at hmem
  | cons q ps ih =>
    intro w w1 values h p v hmem hkind hreq
    simp only [runPrompts] at h
    rcases ha : askParam S q w with ⟨r, w2⟩
    rw [ha] at h
    cases r with
    | error err => simp at h
    | ok v0 =>
      simp only at h
      rcases hr : runPrompts S ps w2 with ⟨r2, w3⟩
      rw [hr] at h
      cases r2 with
      | error err => simp at h
      | ok vs =>
        simp only [Prod.mk.injEq, Except.ok.injEq] at h
        rw [← h.1] at hmem
        simp only [List.zip_cons_cons, List.mem_cons, Prod.mk.injEq] at hmem
        rcases hmem with ⟨hp, hv⟩ | hmem
        · subst hp hv
          have hask : (S.promptRun p.Prompt (validateRequired p) w).1 = .ok v := by
            have := ha
            simp only [askParam, hkind, if_false] at this
            rw [this]
          have hval := hS _ _ _ _ hask
          intro hlen
          simp [validateRequired, hreq, hlen] at hval
        · exact ih w2 w3 vs hr p v hmem hkind hreq

/-- The simulated free-text prompt returns only validated values. -/
theorem promptLoop_validated (validate : Str → Option GoError) :
    ∀ (replies : List Reply) (v : Str),
      (Sim.promptLoop validate replies).1 = .ok v → validate v = none := by
  intro replies
  induction replies with
  | nil => intro v h; simp [Sim.promptLoop] at h
  | cons r rest ih =>
    intro v h
    cases r with
    | abort err => simp [Sim.promptLoop] at h
    | value s =>
      by_cases hs : validate s = none
      · simp only [Sim.promptLoop, hs, if_true, Except.ok.injEq] at h
        rw [← h]
        exact hs
      · simp only [Sim.promptLoop, hs, if_false] at h
        exact ih v h

theorem simSys_honours (schema : templateCfg) : HonoursValidation (simSys schema) := by
  intro label validate w v h
  exact promptLoop_validated validate w.replies v h

/-! ## Claims on parameter collection -/

/-- C5: required free-text validation.  For every parameter whose kind is
not `enum` and every candidate value, the validation callback rejects the
value if and only if the parameter is required and the value has length
zero, and the message of the rejection is the name of the parameter followed
by ` is required`; this callback is the one `buildContext` hands to the
prompt of the parameter; so, with a prompt that returns only values the
callback accepted, the value stored in the context for a required parameter
is never empty. -/
theorem validateRequired_rejects_iff {ω : Type} (S : Sys ω) (param : templateParam)
    (hkind : param.Kind ≠ "enum".toList) :
    (∀ v : Str, validateRequired param v ≠ none ↔ (param.Required = true ∧ v.length = 0))
    ∧ (∀ (v : Str) (err : GoError), validateRequired param v = some err →
        err.msg = param.Name ++ " is required".toList)
    ∧ (∀ (rest : List templateParam) (m : ParamMap) (w : ω),
        buildContextLoop S (param :: rest) m w =
          match S.promptRun param.Prompt (validateRequired param) w with
          | (.error err, w1) => (.error err, w1)
          | (.ok result, w1) => buildContextLoop S rest (setParam m param.Name result) w1)
    ∧ (HonoursValidation S → param.Required = true →
        ∀ (config : templateCfg) (w w1 : ω) (ctx : TemplateContext),
          param ∈ config.Params → (config.Params.map (fun p => p.Name)).Nodup →
          buildContext S config w = (.ok ctx, w1) →
          ∃ v : Str, ctx.Params param.Name = some v ∧ v.length ≠ 0) := by
  refine ⟨?_, ?_, ?_, ?_⟩
  · intro v
    unfold validateRequired
    by_cases h : param.Required = true ∧ v.length = 0
    · simp [h]
    · simp only [if_neg h, ne_eq, not_true_eq_false, false_iff]
      exact h
  · intro v err h
    unfold validateRequired at h
    by_cases hc : param.Required = true ∧ v.length = 0
    · rw [if_pos hc] at h
      cases h
      rfl
    · rw [if_neg hc] at h
      cases h
  · intro rest m w
    simp only [buildContextLoop, hkind, if_false]
  · intro hS hreq config w w1 ctx hmem hnd hb
    unfold buildContext at hb
    rw [buildContextLoop_eq] at hb
    rcases hr : runPrompts S config.Params (printDescription S config w) with ⟨r, w2⟩
    rw [hr] at hb
    cases r with
    | error err => simp at hb
    | ok values =>
      simp only [Prod.mk.injEq, Except.ok.injEq] at hb
      have hlen := runPrompts_length S _ _ _ _ hr
      obtain ⟨i, hi, hget⟩ := List.getElem_of_mem hmem
      have hi2 : i < values.length := by omega
      have hz : (param, values[i]) ∈ List.zip config.Params values := by
        rw [List.mem_iff_getElem]
        refine ⟨i, by simp [List.length_zip]; omega, ?_⟩
        simp [hget]
      refine ⟨values[i], ?_, runPrompts_required_nonempty S hS _ _ _ _ hr param _ hz hkind hreq⟩
      rw [← hb.1]
      apply collectInto_of_mem
      · rw [List.map_fst_zip _ _ (by simp [hlen])]
        exact hnd
      · rw [List.zip_map_left]
        exact List.mem_map.mpr ⟨(param, values[i]), hz, rfl⟩

/-- C5 on the required parameter `project`: the empty value is rejected
with the message `project is required`, the value `widget` is accepted, and
a run in which the user first submits the empty value stores `widget`. -/
theorem validateRequired_rejects_iff_witness :
    projectParam.Kind ≠ "enum".toList
    ∧ (validateRequired projectParam [] ≠ none
        ↔ (projectParam.Required = true ∧ ([] : Str).length = 0))
    ∧ validateRequired projectParam [] = some ⟨"project is required".toList⟩
    ∧ validateRequired projectParam "widget".toList = none
    ∧ (∃ v : Str,
        (setParam (setParam emptyParams "project".toList "widget".toList)
          "license".toList "MIT".toList) projectParam.Name = some v ∧ v.length ≠ 0) :=
  ⟨by decide,
   (validateRequired_rejects_iff (simSys demoCfg) projectParam (by decide)).1 [],
   by decide, by decide,
   (validateRequired_rejects_iff (simSys demoCfg) projectParam (by decide)).2.2.2
     (simSys_honours demoCfg) (by decide) demoCfg
     (demoWorld [.value [], .value "widget".toList, .value "MIT".toList])
     (buildContext (simSys demoCfg) demoCfg
       (demoWorld [.value [], .value "widget".toList, .value "MIT".toList])).2
     ⟨setParam (setParam emptyParams "project".toList "widget".toList)
        "license".toList "MIT".toList⟩
     (by decide) (by decide) (by rfl)⟩

/-- C6: `buildContext` yields exactly one entry per declared parameter.  For
every schema whose parameter names are pairwise distinct and every run in
which all prompts, issued in declaration order, succeed, `buildContext`
returns a context whose `Params` has as its key set exactly the declared
names, and each name maps to the string the prompt of that parameter
returned (the selected choice for kind `enum`, the accepted text
otherwise). -/
theorem buildContext_one_entry_per_parameter {ω : Type} (S : Sys ω) (config : templateCfg)
    (w w1 : ω) (values : List Str)
    (hnd : (config.Params.map (fun p => p.Name)).Nodup)
    (hrun : runPrompts S config.Params (printDescription S config w) = (.ok values, w1)) :
    ∃ ctx : TemplateContext,
      buildContext S config w = (.ok ctx, w1)
      ∧ (∀ k : Str, (ctx.Params k).isSome = true ↔ k ∈ config.Params.map (fun p => p.Name))
      ∧ values.length = config.Params.length
      ∧ (∀ (p : templateParam) (v : Str), (p, v) ∈ List.zip config.Params values →
          ctx.Params p.Name = some v) := by
  have hlen := runPrompts_length S _ _ _ _ hrun
  have hfst : (List.zip (config.Params.map (fun p => p.Name)) values).map Prod.fst
      = config.Params.map (fun p => p.Name) :=
    List.map_fst_zip _ _ (by simp [hlen])
  refine ⟨⟨collectInto emptyParams (List.zip (config.Params.map (fun p => p.Name)) values)⟩,
    ?_, ?_, hlen, ?_⟩
  · unfold buildContext
    rw [buildContextLoop_eq, hrun]
  · intro k
    rw [collectInto_isSome, hfst]
    simp [emptyParams]
  · intro p v hmem
    apply collectInto_of_mem
    · rw [hfst]
      exact hnd
    · rw [List.zip_map_left]
      exact List.mem_map.mpr ⟨(p, v), hmem, rfl⟩

/-- C6 on the demo schema: the user answers `widget` and then `MIT`; the
prompts are shown in declaration order and the context maps `project` to
`widget` and `license` to `MIT`. -/
theorem buildContext_one_entry_per_parameter_witness :
    (demoCfg.Params.map (fun p => p.Name)).Nodup
    ∧ runPrompts (simSys demoCfg) demoCfg.Params
        (printDescription (simSys demoCfg) demoCfg
          (demoWorld [.value "widget".toList, .value "MIT".toList]))
      = (.ok ["widget".toList, "MIT".toList],
          { demoWorld [] with shown := ["Project name".toList, "License".toList] })
    ∧ ∃ ctx : TemplateContext,
        buildContext (simSys demoCfg) demoCfg
            (demoWorld [.value "widget".toList, .value "MIT".toList])
          = (.ok ctx, { demoWorld [] with shown := ["Project name".toList, "License".toList] })
        ∧ (∀ k : Str, (ctx.Params k).isSome = true ↔ k ∈ demoCfg.Params.map (fun p => p.Name))
        ∧ ["widget".toList, "MIT".toList].length = demoCfg.Params.length
        ∧ (∀ (p : templateParam) (v : Str),
            (p, v) ∈ List.zip demoCfg.Params ["widget".toList, "MIT".toList] →
            ctx.Params p.Name = some v) :=
  ⟨by decide, by rfl,
   buildContext_one_entry_per_parameter (simSys demoCfg) demoCfg
     (demoWorld [.value "widget".toList, .value "MIT".toList])
     { demoWorld [] with shown := ["Project name".toList, "License".toList] }
     ["widget".toList, "MIT".toList] (by decide) (by rfl)⟩

/-- C7, as stated, fails: on a fresh instance, a `Resolve` whose second
prompt is interrupted returns the error, but the stored schema is no longer
what it was before the call (it was nil, it now is the loaded schema). -/
theorem Resolve_abort_changes_stored_schema :
    (Resolve (simSys demoCfg) (NewTemplate "tpl".toList "out".toList)
        (demoWorld [.value "widget".toList, .abort ⟨"^C".toList⟩])).2.1 = some ⟨"^C".toList⟩
    ∧ ¬ ((Resolve (simSys demoCfg) (NewTemplate "tpl".toList "out".toList)
            (demoWorld [.value "widget".toList, .abort ⟨"^C".toList⟩])).1.config
          = (NewTemplate "tpl".toList "out".toList).config) := by
  decide

/-- C7, amended: when collection is aborted no context is returned.  For
every instance state and every schema loaded for it, if some prompt returns
an error then `buildContext` returns the first such error and no context
(none of the values collected before it), `Resolve` returns the same error,
and the stored context and the two paths of the instance are exactly what
they were before the call, while the stored schema is the freshly loaded
one. -/
theorem Resolve_fails_with_first_prompt_error {ω : Type} (S : Sys ω) (t : localTemplate)
    (w w1 : ω) (config : templateCfg) (err : GoError)
    (hload : loadTemplateConfig S t.sourcePath w = .ok config)
    (hrun : runPrompts S config.Params (printDescription S config w) = (.error err, w1)) :
    buildContext S config w = (.error err, w1)
    ∧ Resolve S t w =
        ({ config := some config, sourcePath := t.sourcePath,
           destinationPath := t.destinationPath, ctx := t.ctx }, some err, w1) := by
  have hb : buildContext S config w = (.error err, w1) := by
    unfold buildContext
    rw [buildContextLoop_eq, hrun]
  refine ⟨hb, ?_⟩
  unfold Resolve
  rw [hload]
  simp only [hb]

/-- C7, amended, on the demo schema with the second prompt interrupted. -/
theorem Resolve_fails_with_first_prompt_error_witness :
    loadTemplateConfig (simSys demoCfg) resolvedDemo.sourcePath
        (demoWorld [.value "widget".toList, .abort ⟨"^C".toList⟩]) = .ok demoCfg
    ∧ runPrompts (simSys demoCfg) demoCfg.Params
        (printDescription (simSys demoCfg) demoCfg
          (demoWorld [.value "widget".toList, .abort ⟨"^C".toList⟩]))
      = (.error ⟨"^C".toList⟩,
          { demoWorld [] with shown := ["Project name".toList, "License".toList] })
    ∧ buildContext (simSys demoCfg) demoCfg
          (demoWorld [.value "widget".toList, .abort ⟨"^C".toList⟩])
        = (.error ⟨"^C".toList⟩,
            { demoWorld [] with shown := ["Project name".toList, "License".toList] })
    ∧ Resolve (simSys demoCfg) resolvedDemo
          (demoWorld [.value "widget".toList, .abort ⟨"^C".toList⟩])
        = ({ config := some demoCfg, sourcePath := resolvedDemo.sourcePath,
             destinationPath := resolvedDemo.destinationPath, ctx := resolvedDemo.ctx },
            some ⟨"^C".toList⟩,
            { demoWorld [] with shown := ["Project name".toList, "License".toList] }) :=
  ⟨by rfl, by rfl,
   Resolve_fails_with_first_prompt_error (simSys demoCfg) resolvedDemo
     (demoWorld [.value "widget".toList, .abort ⟨"^C".toList⟩])
     { demoWorld [] with shown := ["Project name".toList, "License".toList] }
     demoCfg ⟨"^C".toList⟩ (by rfl) (by rfl)⟩

/-! ## Claim on the life cycle of the instance -/

/-- C9: `Render` resolves exactly when the instance is unresolved and
otherwise reuses the built context.  On an instance whose schema and
context are both set, `Render` does not resolve: it leaves the instance as
it is and only renders the tree, so a repeated `Render` uses the same
context.  On an instance whose schema or context is nil, `Render` is
`Resolve` followed, when `Resolve` succeeds, by the rendering of the tree
with the resolved instance; when `Resolve` fails, `Render` returns that
error and the world is as `Resolve` left it: the destination directory is
not created and the tree is not walked.  After a successful `Resolve` both
the schema and the context are set. -/
theorem Render_resolves_iff_unresolved {ω τ : Type} (S : Sys ω) (E : Engine τ)
    (t : localTemplate) (w : ω) :
    ((t.config ≠ none ∧ t.ctx ≠ none) →
        Render S E t w = (t, renderTree S E t w)
        ∧ ∀ w2 : ω, Render S E (Render S E t w).1 w2 = (t, renderTree S E t w2))
    ∧ ((t.config = none ∨ t.ctx = none) →
        (∀ (t1 : localTemplate) (err : GoError) (w1 : ω),
            Resolve S t w = (t1, some err, w1) → Render S E t w = (t1, some err, w1))
        ∧ (∀ (t1 : localTemplate) (w1 : ω),
            Resolve S t w = (t1, none, w1) →
              Render S E t w = (t1, renderTree S E t1 w1)
              ∧ t1.config ≠ none ∧ t1.ctx ≠ none)) := by
  have hres : (t.config ≠ none ∧ t.ctx ≠ none) → Render S E t w = (t, renderTree S E t w) := by
    intro h
    unfold Render
    have hn : ¬ (t.config.isNone = true ∨ t.ctx.isNone = true) := by
      simp only [Option.isNone_iff_eq_none]
      intro hx
      rcases hx with hx | hx
      · exact h.1 hx
      · exact h.2 hx
    rw [if_neg hn]
  refine ⟨?_, ?_⟩
  · intro h
    refine ⟨hres h, ?_⟩
    intro w2
    rw [hres h]
    unfold Render
    have hn : ¬ (t.config.isNone = true ∨ t.ctx.isNone = true) := by
      simp only [Option.isNone_iff_eq_none]
      intro hx
      rcases hx with hx | hx
      · exact h.1 hx
      · exact h.2 hx
    simp only [if_neg hn]
  · intro h
    have hp : t.config.isNone = true ∨ t.ctx.isNone = true := by
      simp only [Option.isNone_iff_eq_none]
      exact h
    refine ⟨?_, ?_⟩
    · intro t1 err w1 hr
      unfold Render
      rw [if_pos hp, hr]
    · intro t1 w1 hr
      refine ⟨?_, ?_⟩
      · unfold Render
        rw [if_pos hp, hr]
      · unfold Resolve at hr
        cases hl : loadTemplateConfig S t.sourcePath w with
        | error e => rw [hl] at hr; simp at hr
        | ok config =>
          rw [hl] at hr
          simp only at hr
          rcases hb : buildContext S config w with ⟨r, w2⟩
          rw [hb] at hr
          cases r with
          | error e => simp at hr
          | ok ctx =>
            simp only [Prod.mk.injEq] at hr
            rw [← hr.1]
            simp

/-- C9 on the demo template: a resolved instance is rendered without any
prompt and stays as it is; a fresh instance whose second prompt is
interrupted returns the error with no directory made, no file written and
nothing printed. -/
theorem Render_resolves_iff_unresolved_witness :
    (resolvedDemo.config ≠ none ∧ resolvedDemo.ctx ≠ none)
    ∧ (Render (simSys demoCfg) textTemplate resolvedDemo (demoWorld [])
          = (resolvedDemo, renderTree (simSys demoCfg) textTemplate resolvedDemo (demoWorld []))
        ∧ ∀ w2 : Sim,
            Render (simSys demoCfg) textTemplate
                (Render (simSys demoCfg) textTemplate resolvedDemo (demoWorld [])).1 w2
              = (resolvedDemo, renderTree (simSys demoCfg) textTemplate resolvedDemo w2))
    ∧ (renderTree (simSys demoCfg) textTemplate resolvedDemo (demoWorld [])).2.shown = []
    ∧ ((NewTemplate "tpl".toList "out".toList).config = none
        ∨ (NewTemplate "tpl".toList "out".toList).ctx = none)
    ∧ (Render (simSys demoCfg) textTemplate (NewTemplate "tpl".toList "out".toList)
          (demoWorld [.value "widget".toList, .abort ⟨"^C".toList⟩])
        = ({ config := some demoCfg, sourcePath := "tpl".toList,
             destinationPath := "out".toList, ctx := none },
            some ⟨"^C".toList⟩,
            { demoWorld [] with shown := ["Project name".toList, "License".toList] })) :=
  ⟨by simp [resolvedDemo],
   (Render_resolves_iff_unresolved (simSys demoCfg) textTemplate resolvedDemo (demoWorld [])).1
     (by simp [resolvedDemo]),
   by decide,
   Or.inl rfl,
   ((Render_resolves_iff_unresolved (simSys demoCfg) textTemplate
      (NewTemplate "tpl".toList "out".toList)
      (demoWorld [.value "widget".toList, .abort ⟨"^C".toList⟩])).2 (Or.inl rfl)).1
     _ _ _ (by rfl)⟩

/-! ## Lemmas on the template fragment -/

theorem Index_pair_of_not_mem (a b : Char) :
    ∀ s : Str, a ∉ s → Index s [a, b] = none := by
  intro s
  induction s with
  | nil => intro _; simp [Index]
  | cons c s ih =>
    intro h
    simp only [List.mem_cons, not_or] at h
    have hca : ¬ a = c := h.1
    simp [Index, HasPrefix, List.isPrefixOf, hca, ih h.2]

theorem Index_pair_append (a b : Char) :
    ∀ (pre rest : Str), a ∉ pre → Index (pre ++ a :: b :: rest) [a, b] = some pre.length := by
  intro pre
  induction pre with
  | nil => intro rest _; simp [Index, HasPrefix, List.isPrefixOf]
  | cons c pre ih =>
    intro rest h
    simp only [List.mem_cons, not_or] at h
    have hca : ¬ a = c := h.1
    simp [Index, HasPrefix, List.isPrefixOf, hca, ih rest h.2]

theorem isFieldName_ne_nil (k : Str) (h : isFieldName k = true) : k ≠ [] := by
  intro hk
  subst hk
  simp [isFieldName] at h

theorem isFieldName_all (k : Str) (h : isFieldName k = true) :
    ∀ c ∈ k, isAlphaNumeric c = true := by
  cases k with
  | nil => intro c hc; simp at hc
  | cons a s =>
    simp only [isFieldName, Bool.and_eq_true, List.all_eq_true] at h
    exact h.2

theorem splitFields_of_no_dot : ∀ k : Str, '.' ∉ k → splitFields k = [k] := by
  intro k
  induction k with
  | nil => intro _; rfl
  | cons c k ih =>
    intro h
    simp only [List.mem_cons, not_or] at h
    have hc : ¬ c = '.' := fun e => h.1 e.symm
    simp [splitFields, hc, ih h.2]

theorem dropWhile_isSpace_of_head (l : Str) (h : ∀ c, l.head? = some c → isSpace c = false) :
    l.dropWhile isSpace = l := by
  cases l with
  | nil => rfl
  | cons c l =>
    have := h c rfl
    simp [List.dropWhile_cons, this]

theorem parseAction_paramReference (k : Str) (hk : isFieldName k = true) :
    parseAction (" .Params.".toList ++ k ++ [' ']) = some ["Params".toList, k] := by
  have hne := isFieldName_ne_nil k hk
  have hall := isFieldName_all k hk
  have hdot : '.' ∉ k := by
    intro hmem
    have := hall _ hmem
    revert this
    decide
  have hrev : ((".Params.".toList ++ k ++ [' ']).reverse.dropWhile isSpace)
      = (".Params.".toList ++ k).reverse := by
    rw [List.reverse_append]
    have hs : ([' '] : Str).reverse = [' '] := rfl
    rw [hs]
    show List.dropWhile isSpace (' ' :: (".Params.".toList ++ k).reverse) = _
    rw [List.dropWhile_cons]
    have h1 : isSpace ' ' = true := by decide
    rw [if_pos h1]
    apply dropWhile_isSpace_of_head
    intro c hc
    rw [List.reverse_append] at hc
    obtain ⟨k1, last, hkl⟩ : ∃ k1 last, k = k1 ++ [last] := by
      refine ⟨k.dropLast, k.getLast hne, ?_⟩
      exact (List.dropLast_append_getLast hne).symm
    have hlast : isAlphaNumeric last = true := hall last (by rw [hkl]; simp)
    rw [hkl] at hc
    simp only [List.reverse_append, List.reverse_cons, List.reverse_nil, List.nil_append,
      List.singleton_append, List.cons_append, List.head?_cons, Option.some.injEq] at hc
    rw [← hc]
    revert hlast
    generalize last = x
    intro hx
    cases hsp : isSpace x with
    | false => rfl
    | true =>
      simp only [isSpace, Bool.or_eq_true, beq_iff_eq] at hsp
      rcases hsp with e | e
      · subst e
        revert hx
        decide
      · subst e
        revert hx
        decide
  have htrim : trimSpaces (" .Params.".toList ++ k ++ [' ']) = '.' :: ("Params.".toList ++ k) := by
    unfold trimSpaces
    have h0 : (" .Params.".toList ++ k ++ [' ']).dropWhile isSpace
        = ".Params.".toList ++ k ++ [' '] := by
      show List.dropWhile isSpace (' ' :: ('.' :: ("Params.".toList ++ k ++ [' ']))) = _
      rw [List.dropWhile_cons, if_pos (by decide), List.dropWhile_cons, if_neg (by decide)]
      rfl
    rw [h0, hrev, List.reverse_reverse]
    rfl
  have hsplit : splitFields ("Params.".toList ++ k) = ["Params".toList, k] := by
    show splitFields ('P' :: 'a' :: 'r' :: 'a' :: 'm' :: 's' :: '.' :: k) = _
    simp [splitFields, splitFields_of_no_dot k hdot]
  unfold parseAction
  rw [htrim]
  simp only [hsplit]
  have hP : isFieldName "Params".toList = true := by decide
  have hcond : (["Params".toList, k].all isFieldName = true)
      ∧ ((["Params".toList, k].head? ≠ some "Params".toList)
          ∨ ["Params".toList, k].length = 2) := by
    refine ⟨?_, Or.inr rfl⟩
    simp only [List.all_cons, List.all_nil, hP, hk, Bool.and_self]
  exact if_pos hcond

theorem take_length_append (l r : Str) : (l ++ r).take l.length = l := by
  induction l with
  | nil => simp
  | cons c l ih => simp [ih]

theorem drop_length_append (l r : Str) (n : Nat) : (l ++ r).drop (l.length + n) = r.drop n := by
  induction l with
  | nil => simp
  | cons c l ih =>
    have : (c :: l).length + n = (l.length + n) + 1 := by simp only [List.length_cons]; omega
    rw [this, List.cons_append, List.drop_succ_cons, ih]

theorem parseNodes_text (fuel : Nat) (post : Str) (h : '\x7b' ∉ post) :
    parseNodes (fuel + 1) post = some (.ok (textNode post)) := by
  simp only [parseNodes, leftDelim, Index_pair_of_not_mem '\x7b' '\x7b' post h]

/-- A text holding one reference to the parameter `k`, between two texts
without any brace, parses to the first text, the field chain `.Params.k`
and the second text. -/
theorem parseFragment_paramReference (k pre post : Str) (hk : isFieldName k = true)
    (hpre : '\x7b' ∉ pre) (hpost : '\x7b' ∉ post) :
    parseFragment (pre ++ paramReference k ++ post)
      = some (.ok (textNode pre ++ .field ["Params".toList, k] :: textNode post)) := by
  have hall := isFieldName_all k hk
  have hbody : '\x7d' ∉ " .Params.".toList ++ k ++ [' '] := by
    intro hmem
    simp only [List.mem_append, List.mem_singleton] at hmem
    rcases hmem with (h1 | h2) | h3
    · revert h1
      decide
    · have := hall _ h2
      revert this
      decide
    · revert h3
      decide
  have hin : pre ++ paramReference k ++ post
      = pre ++ '\x7b' :: '\x7b' :: ((" .Params.".toList ++ k ++ [' ']) ++ '\x7d' :: '\x7d' :: post) := by
    simp [paramReference, leftDelim, rightDelim]
  have hlen : (pre ++ paramReference k ++ post).length
      = ((pre ++ paramReference k ++ post).length - 1) + 1 := by
    rw [hin]
    simp only [List.length_append, List.length_cons]
    omega
  unfold parseFragment
  rw [hlen, hin]
  generalize ((pre ++ '\x7b' :: '\x7b' ::
    ((" .Params.".toList ++ k ++ [' ']) ++ '\x7d' :: '\x7d' :: post)).length - 1) = n
  have hi := Index_pair_append '\x7b' '\x7b' pre
    ((" .Params.".toList ++ k ++ [' ']) ++ '\x7d' :: '\x7d' :: post) hpre
  have hj := Index_pair_append '\x7d' '\x7d' (" .Params.".toList ++ k ++ [' ']) post hbody
  have hd : (pre ++ '\x7b' :: '\x7b' ::
      ((" .Params.".toList ++ k ++ [' ']) ++ '\x7d' :: '\x7d' :: post)).drop (pre.length + 2)
      = (" .Params.".toList ++ k ++ [' ']) ++ '\x7d' :: '\x7d' :: post := by
    rw [drop_length_append]
    rfl
  have ht : (pre ++ '\x7b' :: '\x7b' ::
      ((" .Params.".toList ++ k ++ [' ']) ++ '\x7d' :: '\x7d' :: post)).take pre.length = pre :=
    take_length_append pre _
  have hd2 : ((" .Params.".toList ++ k ++ [' ']) ++ '\x7d' :: '\x7d' :: post).drop
      ((" .Params.".toList ++ k ++ [' ']).length + 2) = post := by
    rw [drop_length_append]
    rfl
  have ht2 : ((" .Params.".toList ++ k ++ [' ']) ++ '\x7d' :: '\x7d' :: post).take
      ((" .Params.".toList ++ k ++ [' ']).length) = " .Params.".toList ++ k ++ [' '] :=
    take_length_append _ _
  rw [parseNodes]
  simp only [leftDelim, rightDelim, hi, hd, hj, ht, ht2, hd2, parseAction_paramReference k hk]
  rw [parseNodes_text n post hpost]

theorem execNodes_textNode_append (ctx : Option TemplateContext) (s : Str) (nodes : List Node) :
    execNodes ctx (textNode s ++ nodes)
      = (s ++ (execNodes ctx nodes).1, (execNodes ctx nodes).2) := by
  unfold textNode
  by_cases h : s = []
  · subst h
    simp
  · simp [h, execNodes]

theorem execNodes_textNode (ctx : Option TemplateContext) (s : Str) :
    execNodes ctx (textNode s) = (s, none) := by
  have := execNodes_textNode_append ctx s []
  simpa [execNodes] using this

/-- Executing a text that holds one reference to the parameter `k` writes
the entry of `k`, or `<no value>` when the context has none, between the
two texts, and returns no error. -/
theorem textTemplate_paramReference (ctx : TemplateContext) (k pre post : Str)
    (hk : isFieldName k = true) (hpre : '\x7b' ∉ pre) (hpost : '\x7b' ∉ post) :
    ∃ t : List Node, textTemplate.parse (pre ++ paramReference k ++ post) = .ok t
      ∧ textTemplate.exec t (some ctx)
          = (pre ++ (ctx.Params k).getD noValue ++ post, none) := by
  refine ⟨textNode pre ++ .field ["Params".toList, k] :: textNode post, ?_, ?_⟩
  · show (match parseFragment (pre ++ paramReference k ++ post) with
        | some r => r
        | none => .error ⟨"outside the modelled fragment".toList⟩) = _
    rw [parseFragment_paramReference k pre post hk hpre hpost]
  · show execNodes (some ctx) (textNode pre ++ .field ["Params".toList, k] :: textNode post) = _
    rw [execNodes_textNode_append]
    have he : evalField (some ctx) ["Params".toList, k] = .ok ((ctx.Params k).getD noValue) := by
      simp [evalField]
    simp only [execNodes, he, execNodes_textNode, List.append_assoc]

/-! ## Claim on references to absent parameters -/

/-- C4, as stated, fails: with no entry for `missing` in the context, the
path `tpl/` followed by the reference renders to `tpl/<no value>` with a nil
error, the file holding the reference is written with `<no value>` in its
place, and `Render` returns nil. -/
theorem missing_parameter_is_not_an_error :
    emptyParams "missing".toList = none
    ∧ renderFilename textTemplate ("tpl/".toList ++ paramReference "missing".toList)
        (some ⟨emptyParams⟩) = .ok "tpl/<no value>".toList
    ∧ ¬ (∃ err : GoError,
          renderFilename textTemplate ("tpl/".toList ++ paramReference "missing".toList)
            (some ⟨emptyParams⟩) = .error err)
    ∧ (renderFile (simSys demoCfg) textTemplate "tpl/hello.txt".toList "out/hello.txt".toList
        (some ⟨emptyParams⟩) missingWorld).1 = none
    ∧ (Render (simSys demoCfg) textTemplate
        { config := some demoCfg, sourcePath := "tpl".toList, destinationPath := "out".toList,
          ctx := some ⟨emptyParams⟩ } missingWorld).2.1 = none
    ∧ (Render (simSys demoCfg) textTemplate
        { config := some demoCfg, sourcePath := "tpl".toList, destinationPath := "out".toList,
          ctx := some ⟨emptyParams⟩ } missingWorld).2.2.files
        = [("out/hello.txt".toList, "Hello <no value>!".toList)] := by
  have h : renderFilename textTemplate ("tpl/".toList ++ paramReference "missing".toList)
      (some ⟨emptyParams⟩) = .ok "tpl/<no value>".toList := by rfl
  refine ⟨rfl, h, ?_, by decide, by decide, by decide⟩
  rintro ⟨err, he⟩
  rw [h] at he
  cases he

/-- C4, amended: referencing a parameter that is absent from the context is
not an error, in either mode.  For every context and every field name `k`
that is not a key of `ctx.Params`, a path string or a file content made of
the reference to `.Params.k` between two texts without braces renders with
`<no value>` in place of the reference: `renderFilename` returns that string
and a nil error, and `renderFile` creates the destination file and writes
that string to it, returning only an error of the creation or of the
write. -/
theorem absent_parameter_renders_no_value {ω : Type} (S : Sys ω) (ctx : TemplateContext)
    (k pre post : Str) (hk : isFieldName k = true) (habsent : ctx.Params k = none)
    (hpre : '\x7b' ∉ pre) (hpost : '\x7b' ∉ post) :
    renderFilename textTemplate (pre ++ paramReference k ++ post) (some ctx)
        = .ok (pre ++ noValue ++ post)
    ∧ ∀ (source destination : Str) (w : ω),
        S.readFile source w = .ok (pre ++ paramReference k ++ post) →
        renderFile S textTemplate source destination (some ctx) w =
          match S.create destination w with
          | (some err, w1) => (some err, w1)
          | (none, w1) => S.write destination (pre ++ noValue ++ post) w1 := by
  obtain ⟨t, hparse, hexec⟩ := textTemplate_paramReference ctx k pre post hk hpre hpost
  rw [habsent] at hexec
  simp only [Option.getD_none] at hexec
  refine ⟨?_, ?_⟩
  · unfold renderFilename
    rw [hparse]
    simp only [hexec]
  · intro source destination w hread
    unfold renderFile
    rw [hread]
    simp only [hparse, hexec]
    rcases S.create destination w with ⟨e, w1⟩
    cases e with
    | some err => rfl
    | none =>
      simp only
      rcases S.write destination (pre ++ noValue ++ post) w1 with ⟨e2, w2⟩
      cases e2 <;> rfl

/-- C4, amended, on the file `tpl/hello.txt` of the demo world. -/
theorem absent_parameter_renders_no_value_witness :
    isFieldName "missing".toList = true
    ∧ emptyParams "missing".toList = none
    ∧ '\x7b' ∉ "Hello ".toList ∧ '\x7b' ∉ "!".toList
    ∧ renderFilename textTemplate ("Hello ".toList ++ paramReference "missing".toList ++ "!".toList)
        (some ⟨emptyParams⟩) = .ok ("Hello ".toList ++ noValue ++ "!".toList)
    ∧ renderFile (simSys demoCfg) textTemplate "tpl/hello.txt".toList "out/hello.txt".toList
        (some ⟨emptyParams⟩) missingWorld
        = (none, { missingWorld with files := [("out/hello.txt".toList, "Hello <no value>!".toList)] }) :=
  ⟨by decide, rfl, by decide, by decide,
   (absent_parameter_renders_no_value (simSys demoCfg) ⟨emptyParams⟩ "missing".toList
      "Hello ".toList "!".toList (by decide) rfl (by decide) (by decide)).1,
   (absent_parameter_renders_no_value (simSys demoCfg) ⟨emptyParams⟩ "missing".toList
      "Hello ".toList "!".toList (by decide) rfl (by decide) (by decide)).2
      "tpl/hello.txt".toList "out/hello.txt".toList missingWorld (by rfl)⟩

end New
